import Mathlib

/-!
# Sortacle detection-to-actuation pipeline: a shallow embedding

This file embeds the core pipeline logic of the Sortacle repository
(`src/inference/detector_ui_pro.py`, `src/inference/detector_headless.py`,
`src/inference/model.py`, `src/inference/recyclability.py`) as executable
Lean definitions and proves (or refutes) the specification's claims about it.

Python floats are modelled as rationals (`ℚ`); timestamps likewise.  A Python
exception raised by an external call (cloud inference, sqlite logging, servo
I/O) is modelled by an explicit boolean fault flag on the corresponding step.
-/

namespace Sortacle

/-- A detection as produced by the cloud endpoint: label, confidence, bbox.
(`model.py:format_detections` entries `{bbox, label, confidence}`.) -/
structure Detection where
  label : String
  confidence : ℚ
  bbox : ℚ × ℚ × ℚ × ℚ
deriving DecidableEq, Repr

/-- The classification response consumed by both detectors:
`{"detections": [...], "inference_time_ms": ...}`. -/
structure ClassificationResult where
  detections : List Detection
  inferenceTimeMs : ℚ
deriving DecidableEq, Repr

/-! ## Detection filtering and best-candidate selection

`detector_ui_pro.py:327` and `detector_headless.py:107`:
`filtered = [d for d in raw_detections if d["confidence"] >= self.confidence_threshold]`
-/

/-- Confidence thresholding, as the list comprehension in both detectors. -/
def filterDetections (dets : List Detection) (threshold : ℚ) : List Detection :=
  dets.filter fun d => threshold ≤ d.confidence

/-- Best-candidate selection, `max(filtered, key=lambda x: x['confidence'])`
(`detector_ui_pro.py:336`, `detector_headless.py:116`).  Python's `max`
scans left to right and replaces the running best only on a strictly larger
key, hence returns the earliest maximum.  `max` on an empty sequence raises;
we return `none` (both call sites guard on non-emptiness). -/
def selectBest (dets : List Detection) : Option Detection :=
  match dets with
  | [] => none
  | d :: rest =>
    some (rest.foldl (fun best x => if best.confidence < x.confidence then x else best) d)

/-! ## Recyclability lookup (`recyclability.py`) -/

/-- `RECYCLABILITY_TABLE` of `recyclability.py`, as an association list. -/
def RECYCLABILITY_TABLE : List (String × Bool) :=
  [("can", true), ("bottle", true), ("cardboard box", true), ("cardboard", true),
   ("paper", true),
   ("cup", false), ("plastic bag", false), ("chip bag", false),
   ("food package", false), ("wrapper", false), ("plastic wrapper", false),
   ("food container", false), ("styrofoam", false), ("foam container", false),
   ("straw", false), ("fork", false), ("spoon", false), ("plastic utensil", false),
   ("napkin", false), ("tissue", false),
   ("banana", false), ("apple", false), ("orange", false),
   ("phone", false), ("battery", false), ("light bulb", false),
   ("pen", false), ("pencil", false), ("toy", false)]

/-- Python's `str.lower()` as a character-wise map (all labels involved are
ASCII). -/
def pyLower (s : String) : String := ⟨s.data.map Char.toLower⟩

/-- `is_recyclable(label)`: `RECYCLABILITY_TABLE.get(label.lower(), False)`. -/
def isRecyclable (label : String) : Bool :=
  ((RECYCLABILITY_TABLE.lookup (pyLower label)).getD false)

/-! ## Dedup guard (`detector_ui_pro.py:338-354`)

`item_key = f"{best_detection['label']}_{int(time.time() / 5)}"`; the cycle
logs (admits) only when `item_key not in self.last_logged_items`, and on a
successful log adds the key, pruning to at most 10 retained keys.
-/

/-- Python's `int()` on a non-negative float truncates toward zero; on `ℚ`
this is numerator T-division by denominator. -/
def pyInt (q : ℚ) : ℤ := q.num / (q.den : ℤ)

/-- The dedup key `f"{label}_{int(now / 5)}"`. -/
def itemKey (label : String) (now : ℚ) : String :=
  label ++ "_" ++ toString (pyInt (now / 5))

/-- The admission test `item_key not in self.last_logged_items`.
`last_logged_items` is a Python `set`; we model it as the list of keys in
insertion order (membership is all the admission test uses). -/
def guardAdmit (lastLoggedItems : List String) (label : String) (now : ℚ) : Bool :=
  !(lastLoggedItems.contains (itemKey label now))

/-- The state update on a successful log: `add(item_key)` then, if more than
10 keys are retained, `pop()` one.  `set.pop` removes an unspecified element;
we model it as removing the oldest (the claims proved below only exercise
runs that never reach 11 keys, where `pop` does not run). -/
def guardUpdate (items : List String) (label : String) (now : ℚ) : List String :=
  let items' := items ++ [itemKey label now]
  if items'.length > 10 then items'.tail else items'

/-- A run of the guard over a sequence of (label, timestamp) candidates,
updating the retained keys exactly on admission (the code adds the key only
when the candidate was admitted and the log succeeded; this run models
all-logs-succeed).  Returns the admission decisions in order. -/
def guardRun (items : List String) : List (String × ℚ) → List Bool
  | [] => []
  | (label, now) :: rest =>
    let a := guardAdmit items label now
    let items' := if a then guardUpdate items label now else items
    a :: guardRun items' rest

/-! ## The AwaitingClear wait loop (`detector_ui_pro.py:132-165`)

```
max_wait_time = 5.0; check_interval = 0.3; waited = 0
consecutive_clear_checks = 0; required_clear_checks = 2
while waited < max_wait_time:
    sleep(0.3); waited += check_interval
    item_still_visible = <poll latest_detections>
    if not item_still_visible:
        consecutive_clear_checks += 1
        if consecutive_clear_checks >= required_clear_checks: item_gone = True; break
    else: consecutive_clear_checks = 0
```

Before iteration `k` (0-based) the loop has `waited = k * 0.3`, so the guard
`waited < 5.0` holds exactly when `k < 17` (lemma `clearLoop_guard` below);
the loop is therefore written with the remaining iteration count `17 - k` as
a structurally decreasing argument.  `visible k` is the poll result of the
`k`-th check. -/
def clearLoop (visible : ℕ → Bool) : (fuel : ℕ) → (k : ℕ) → (consec : ℕ) → Bool × ℕ
  | 0, k, _ => (false, k)
  | fuel + 1, k, consec =>
    if visible k then clearLoop visible fuel (k + 1) 0
    else if consec + 1 ≥ 2 then (true, k + 1)
    else clearLoop visible fuel (k + 1) (consec + 1)

/-- The whole wait: returns (`item_gone`, number of checks performed). -/
def awaitClear (visible : ℕ → Bool) : Bool × ℕ := clearLoop visible 17 0 0

/-- The loop guard `waited < max_wait_time`, i.e. `k * 0.3 < 5.0`, holds
exactly when fewer than 17 iterations have run — the faithfulness of the
`fuel = 17 - k` encoding of `clearLoop`. -/
theorem clearLoop_guard (k : ℕ) : (k : ℚ) * (3 / 10) < 5 ↔ k < 17 := by
  constructor
  · intro h
    by_contra hk
    push_neg at hk
    have h17 : (17 : ℚ) ≤ (k : ℚ) := by exact_mod_cast hk
    nlinarith
  · intro h
    have h16 : (k : ℚ) ≤ 16 := by exact_mod_cast Nat.lt_succ_iff.mp h
    nlinarith

/-! ## Servo actuation

### `SortacleUIPro.move_servo_for_item` (`detector_ui_pro.py:104-177`)

The whole body runs in a `try`; each of the three `servo.angle` assignments
(reset-to-center, open, close) may raise an I/O error, aborting the rest of
the body and entering the handler, which makes one best-effort re-center
attempt whose own failure is swallowed (`except: pass`).  Fault flags
`f0 f1 f2` model the three assignments raising; `rf` models the emergency
re-center raising.  A raising assignment is still *issued* (it appears in
`cmds`) but does not change the position. -/

structure MoveResult where
  /-- The `servo.angle` assignments attempted, in order. -/
  cmds : List ℚ
  /-- The physical position after the call (assignments that raised did not
  take effect). -/
  finalPos : ℚ
  /-- Whether the `except` handler ran (the fault was printed). -/
  faultReported : Bool
  /-- The loop's `item_gone` flag (`false` when the loop never ran). -/
  itemGone : Bool
deriving DecidableEq, Repr

/-- The `except Exception` handler of `move_servo_for_item`: report, then one
emergency `servo.angle = 90` whose own failure is ignored. -/
def emergencyRecenter (issued : List ℚ) (pos : ℚ) (rf : Bool) (gone : Bool) :
    MoveResult :=
  ⟨issued ++ [90], if rf then pos else 90, true, gone⟩

/-- `SortacleUIPro.move_servo_for_item`.  `pos` is the physical position on
entry; `visible` is the AwaitingClear poll trace. -/
def moveServoForItem (enableServo recyclable : Bool) (pos : ℚ)
    (f0 f1 f2 rf : Bool) (visible : ℕ → Bool) : MoveResult :=
  if enableServo = false then ⟨[], pos, false, false⟩
  else
    let targetAngle : ℚ := if recyclable then 0 else 180
    let actualAngle : ℚ := 180 - targetAngle
    if f0 then emergencyRecenter [90] pos rf false
    else if f1 then emergencyRecenter [90, actualAngle] 90 rf false
    else
      let gone := (awaitClear visible).1
      if f2 then emergencyRecenter [90, actualAngle, 90] actualAngle rf gone
      else ⟨[90, actualAngle, 90], 90, false, gone⟩

/-- `SortacleHeadless.move_servo` (`detector_headless.py:59-81`): open angle
`180` (recyclable, inverted 0°) or `90` (trash), then home `180`; the
handler only prints — it issues no recovery command.  `g0 g1` model the two
assignments raising.  Returns (issued commands, final position, fault
reported). -/
def moveServo (enableServo recyclableItem : Bool) (pos : ℚ) (g0 g1 : Bool) :
    List ℚ × ℚ × Bool :=
  if enableServo = false then ([], pos, false)
  else
    let actualAngle : ℚ := if recyclableItem then 180 else 90
    if g0 then ([actualAngle], pos, true)
    else if g1 then ([actualAngle, 180], actualAngle, true)
    else ([actualAngle, 180], 180, false)

/-! ## One inference cycle of `SortacleUIPro.inference_thread`
(`detector_ui_pro.py:290-380`) -/

/-- The externally observable actions of one cycle, in program order. -/
inductive CycleAction where
  /-- A `DataLogger.log_disposal` attempt for the given label; `ok` is
  whether it succeeded (an exception is caught at line 363). -/
  | recordEvent (label : String) (ok : Bool)
  /-- A physical `servo.angle` assignment. -/
  | servoCommand (angle : ℚ)
deriving DecidableEq, Repr

def CycleAction.isServoCommand : CycleAction → Bool
  | .servoCommand _ => true
  | _ => false

def CycleAction.isRecordEvent : CycleAction → Bool
  | .recordEvent _ _ => true
  | _ => false

/-- The mutable fields of `SortacleUIPro` touched by one inference cycle,
plus the physical servo position. -/
structure UIState where
  latestDetections : List Detection
  inferenceSource : String
  inferenceTimeMs : ℚ
  lastLoggedItems : List String
  loggedCount : ℕ
  detectionCount : ℕ
  servoPos : ℚ
deriving DecidableEq, Repr

/-- Per-cycle environment: configuration, the wall clock at the dedup check,
and the fault flags of the cycle's external calls. -/
structure CycleEnv where
  confidenceThreshold : ℚ
  enableLogging : Bool
  enableServo : Bool
  /-- `time.time()` when `item_key` is computed. -/
  now : ℚ
  /-- Whether `DataLogger.log_disposal` raises this cycle. -/
  logFails : Bool
  f0 : Bool
  f1 : Bool
  f2 : Bool
  recenterFault : Bool
  /-- The AwaitingClear poll trace. -/
  visible : ℕ → Bool

/-- One iteration of the `while self.running` body of `inference_thread`,
from the classification attempt on.  `outcome = none` models
`run_cloud_inference` raising (timeout / connection error), which the code
answers with `time.sleep(1); continue` — lines 315-319.  Returns the new
state and the cycle's external actions in program order. -/
def uiProInferenceCycle (env : CycleEnv) (st : UIState)
    (outcome : Option ClassificationResult) : UIState × List CycleAction :=
  match outcome with
  | none => (st, [])
  | some res =>
    let filtered := filterDetections res.detections env.confidenceThreshold
    let (st', actions) :=
      match selectBest filtered with
      | none => (st, ([] : List CycleAction))
      | some best =>
        if env.enableLogging = false then (st, [])
        else
          let key := itemKey best.label env.now
          if st.lastLoggedItems.contains key then (st, [])
          else if env.logFails then
            -- `log_disposal` raised: caught at line 363; count, key and
            -- servo are all skipped.
            (st, [CycleAction.recordEvent best.label false])
          else
            let recyclable := isRecyclable best.label
            let items := guardUpdate st.lastLoggedItems best.label env.now
            let mv := moveServoForItem env.enableServo recyclable st.servoPos
              env.f0 env.f1 env.f2 env.recenterFault env.visible
            ({ st with lastLoggedItems := items,
                       loggedCount := st.loggedCount + 1,
                       servoPos := mv.finalPos },
             CycleAction.recordEvent best.label true ::
               mv.cmds.map CycleAction.servoCommand)
    ({ st' with latestDetections := filtered,
                inferenceSource := "cloud",
                inferenceTimeMs := res.inferenceTimeMs,
                detectionCount := st'.detectionCount + filtered.length },
     actions)

/-- The admitted tail of `SortacleHeadless.process_frame`
(`detector_headless.py:126-141`): a `log_disposal` attempt in its own
`try/except`, then `move_servo` unconditionally. -/
def headlessLogAndMove (enableLogging logFails enableServo recyclableItem : Bool)
    (label : String) (pos : ℚ) (g0 g1 : Bool) : List CycleAction :=
  (if enableLogging then [CycleAction.recordEvent label (!logFails)] else []) ++
  ((moveServo enableServo recyclableItem pos g0 g1).1.map CycleAction.servoCommand)

/-! ## The frame queue (`detector_ui_pro.py:405-407` and `297-298`) -/

/-- The capture loop's enqueue:
`if not self.paused and not self.frame_queue.full(): self.frame_queue.put(frame)`
with `queue.Queue(maxsize=2)`.  Frames are opaque ids; the queue is the list
of queued frames, oldest first. -/
def captureEnqueue (paused : Bool) (q : List ℕ) (frame : ℕ) : List ℕ :=
  if paused = false ∧ q.length < 2 then q ++ [frame] else q

/-- The inference worker's drain:
`frame = None; while not self.frame_queue.empty(): frame = self.frame_queue.get_nowait()`.
Returns the frame that will be processed and the queue afterwards. -/
def drainLoop : Option ℕ → List ℕ → Option ℕ × List ℕ
  | acc, [] => (acc, [])
  | _, f :: rest => drainLoop (some f) rest

/-! ## Overlap suppression (`model.py:52-116`) -/

/-- `compute_iou(box1, box2)`. -/
def computeIoU (box1 box2 : ℚ × ℚ × ℚ × ℚ) : ℚ :=
  let x1 := max box1.1 box2.1
  let y1 := max box1.2.1 box2.2.1
  let x2 := min box1.2.2.1 box2.2.2.1
  let y2 := min box1.2.2.2 box2.2.2.2
  let inter := max 0 (x2 - x1) * max 0 (y2 - y1)
  let area1 := (box1.2.2.1 - box1.1) * (box1.2.2.2 - box1.2.1)
  let area2 := (box2.2.2.1 - box2.1) * (box2.2.2.2 - box2.2.1)
  let union := area1 + area2 - inter
  if union > 0 then inter / union else 0

/-- The descending-confidence order used by
`sorted(detections, key=lambda x: x['confidence'], reverse=True)`. -/
def confGE (a b : Detection) : Prop := b.confidence ≤ a.confidence

instance : DecidableRel confGE := fun a b => by
  unfold confGE; infer_instance

instance : IsTotal Detection confGE := ⟨fun a b => le_total b.confidence a.confidence⟩

instance : IsTrans Detection confGE :=
  ⟨fun _ _ _ h₁ h₂ => le_trans h₂ h₁⟩

instance : IsRefl Detection confGE := ⟨fun a => le_refl a.confidence⟩

/-- The body of the `for det in sorted_dets` loop of `filter_overlapping`:
append `det` to `kept` unless it overlaps a kept box above the threshold. -/
def keepStep (iouThreshold : ℚ) (kept : List Detection) (det : Detection) :
    List Detection :=
  if kept.any (fun keptDet => iouThreshold < computeIoU det.bbox keptDet.bbox)
  then kept else kept ++ [det]

/-- `filter_overlapping(detections, iou_threshold)`.  Python's `sorted` is a
stable comparison sort; `List.insertionSort confGE` is one such sort (the
claims proved below do not depend on stability). -/
def filterOverlapping (detections : List Detection) (iouThreshold : ℚ) :
    List Detection :=
  match detections with
  | [] => detections
  | _ :: _ =>
    (detections.insertionSort confGE).foldl (keepStep iouThreshold) []

/-- `format_detections`: the per-result extraction from the external YOLO
result objects is outside the model; its output is the `detections` list this
function receives, to which `filter_overlapping(..., iou_threshold=0.5)` is
applied. -/
def formatDetections (detections : List Detection) (timeMs : ℚ) :
    ClassificationResult :=
  { detections := filterOverlapping detections (1/2), inferenceTimeMs := timeMs }

/-! ## Claim C7: detection filtering -/

/-- C7: for every confidence threshold `t` and detection sequence `D`,
`filter(D, t)` returns exactly the detections of `D` whose confidence is at
least `t` (membership-exact and multiplicity-exact), preserving their
original relative order (the output is a sublist of `D`). -/
theorem filterDetections_exact (D : List Detection) (t : ℚ) :
    (∀ d, d ∈ filterDetections D t ↔ d ∈ D ∧ t ≤ d.confidence) ∧
    (∀ d, (filterDetections D t).count d
      = if t ≤ d.confidence then D.count d else 0) ∧
    (filterDetections D t).Sublist D := by
  refine ⟨?_, ?_, List.filter_sublist D⟩
  · intro d
    simp [filterDetections]
  · intro d
    by_cases h : t ≤ d.confidence
    · simp [filterDetections, List.count_filter, h]
    · simp only [filterDetections, if_neg h]
      exact List.count_eq_zero.mpr
        (fun hm => h (by simpa using (List.mem_filter.mp hm).2))

/-! ## Claim C6: classification-failure atomicity -/

/-- C6: in a cycle whose classification call fails (`run_cloud_inference`
raises), the inference thread executes `time.sleep(1); continue`: no
actuation and no record attempt happen (the action trace is empty), the
StatusHub fields (`latest_detections`, `inference_source`,
`inference_time_ms`) and all other state are unchanged, and no retry occurs
within the cycle — the next loop iteration runs the same cycle function
afresh. -/
theorem classification_failure_skips_cycle (env : CycleEnv) (st : UIState) :
    uiProInferenceCycle env st none = (st, []) := rfl

/-! ## Claim C4: frame-queue drop policy -/

/-- C4 counterexample: with the queue full (`[1, 2]`, capacity 2), the
capture loop's enqueue of frame `3` leaves the queue unchanged — the
incoming **newest** frame is dropped and the oldest (`1`) is kept, not the
other way round as the claim states. -/
theorem frameQueue_drops_newest :
    captureEnqueue false [1, 2] 3 = [1, 2] ∧
    (3 : ℕ) ∉ captureEnqueue false [1, 2] 3 ∧
    captureEnqueue false [1, 2] 3 ≠ [2, 3] := by decide

/-- C4 amended: the queue never exceeds capacity 2; an enqueue attempted
while the queue is full leaves the queue unchanged (the incoming newest
frame is the one dropped); and the inference worker drains the whole queue,
processing the newest *queued* frame (the last enqueued). -/
theorem frameQueue_bounded_full_drop (p : Bool) (q : List ℕ) (f a b : ℕ)
    (h : q.length ≤ 2) :
    (captureEnqueue p q f).length ≤ 2 ∧
    captureEnqueue p [a, b] f = [a, b] ∧
    drainLoop none q = (q.getLast?, []) := by
  refine ⟨?_, ?_, ?_⟩
  · unfold captureEnqueue
    by_cases hc : p = false ∧ q.length < 2
    · rw [if_pos hc]; simp; omega
    · rw [if_neg hc]; exact h
  · simp [captureEnqueue]
  · have aux : ∀ (l : List ℕ) (x : ℕ),
        drainLoop (some x) l = (some (l.getLast?.getD x), []) := by
      intro l
      induction l with
      | nil => intro x; simp [drainLoop]
      | cons y rest ih =>
        intro x
        rw [drainLoop, ih y]
        simp [List.getLast?_cons]
    cases q with
    | nil => simp [drainLoop]
    | cons x rest =>
      rw [drainLoop, aux rest x]
      simp [List.getLast?_cons]

/-- C4 witness: the amended statement at `p = false`, `q = [1, 2]`,
`f = 3`. -/
theorem frameQueue_bounded_full_drop_witness :
    ([1, 2] : List ℕ).length ≤ 2 ∧
    ((captureEnqueue false [1, 2] 3).length ≤ 2 ∧
     captureEnqueue false [1, 2] 3 = [1, 2] ∧
     drainLoop none [1, 2] = (([1, 2] : List ℕ).getLast?, [])) :=
  ⟨by decide, frameQueue_bounded_full_drop false [1, 2] 3 1 2 (by decide)⟩

/-! ## Claim C1: single-flight actuation -/

/-- C1 counterexample: `move_servo_for_item` has no Centered-state guard.
Called with the mechanism at angle `0` — i.e. mid-sequence, not centered —
the enabled controller still issues its full command sequence
`[90, 180, 90]` instead of rejecting the call. -/
theorem trigger_executes_while_uncentered :
    (moveServoForItem true true 0 false false false false (fun _ => false)).cmds
      = [90, 180, 90] ∧
    (moveServoForItem true true 0 false false false false (fun _ => false)).cmds
      ≠ [] := by
  have h : (moveServoForItem true true 0 false false false false
      (fun _ => false)).cmds = [90, 180, 90] := by
    norm_num [moveServoForItem, emergencyRecenter]
  exact ⟨h, by rw [h]; simp⟩

/-- C1 amended: trigger calls are never rejected on the basis of the
controller's state — there is no state machine.  An enabled call always
executes, and its first issued command is an unconditional reset to center
(90°); a disabled servo is the only early return, issuing no commands.
Serialization of actuation sequences comes solely from the single inference
thread calling this function synchronously. -/
theorem trigger_never_rejected (recyclable : Bool) (pos : ℚ)
    (f0 f1 f2 rf : Bool) (visible : ℕ → Bool) :
    (moveServoForItem true recyclable pos f0 f1 f2 rf visible).cmds.head?
      = some 90 ∧
    (moveServoForItem false recyclable pos f0 f1 f2 rf visible).cmds = [] := by
  cases f0 <;> cases f1 <;> cases f2 <;>
    simp [moveServoForItem, emergencyRecenter]

/-! ## Claim C5: actuator fail-safe -/

/-- C5 counterexample: in `SortacleHeadless.move_servo`, starting at home
(180, the inverted 0° rest position), opening the trash bin (90) succeeds
and the return-home command raises.  The handler only prints: no recovery
command is issued and the mechanism is left at 90 — the open trash
position, not the neutral position — refuting "immediately returns the
mechanism to the Centered position" on every I/O failure. -/
theorem headless_fault_leaves_bin_open :
    moveServo true false 180 false true = ([90, 180], 90, true) ∧
    (90 : ℚ) ≠ 180 := by
  refine ⟨rfl, by norm_num⟩

/-- C5 amended: on an actuator I/O failure, `move_servo_for_item` (ui_pro)
reports the fault and makes one best-effort re-center attempt: whenever
that emergency command itself does not fail, the final position is 90
(center) and the fault is reported exactly when some command failed.
`move_servo` (headless) reports the fault exactly when a command failed
but issues no recovery command: when the open succeeds and the return-home
fails, the mechanism stays at the open angle. -/
theorem actuator_fault_handling (recyclable : Bool) (pos : ℚ)
    (f0 f1 f2 g0 g1 : Bool) (visible : ℕ → Bool) :
    (moveServoForItem true recyclable pos f0 f1 f2 false visible).finalPos = 90 ∧
    (moveServoForItem true recyclable pos f0 f1 f2 false visible).faultReported
      = (f0 || f1 || f2) ∧
    (moveServo true recyclable pos g0 g1).2.2 = (g0 || g1) ∧
    (moveServo true recyclable pos false true).2.1
      = (if recyclable then 180 else 90) := by
  cases recyclable <;> cases f0 <;> cases f1 <;> cases f2 <;> cases g0 <;>
    cases g1 <;> simp [moveServoForItem, moveServo, emergencyRecenter]

/-! ## Claim C3: dedup/cooldown admission -/

/-- `int(now / 5)` evaluated at the timestamps the C3 theorems use. -/
lemma pyInt_vals :
    pyInt ((0 : ℚ) / 5) = 0 ∧ pyInt ((1 : ℚ) / 5) = 0 ∧
    pyInt ((3 : ℚ) / 5) = 0 ∧ pyInt ((4 : ℚ) / 5) = 0 ∧
    pyInt ((6 : ℚ) / 5) = 1 := by
  norm_num [pyInt]

lemma itemKey_vals :
    itemKey "bottle" 0 = "bottle_0" ∧ itemKey "bottle" 3 = "bottle_0" ∧
    itemKey "bottle" 4 = "bottle_0" ∧ itemKey "bottle" 6 = "bottle_1" ∧
    itemKey "can" 1 = "can_0" := by
  obtain ⟨h0, h1, h3, h4, h6⟩ := pyInt_vals
  unfold itemKey
  rw [h0, h1, h3, h4, h6]
  refine ⟨rfl, rfl, rfl, rfl, rfl⟩

/-- C3 counterexample: the guard is not a sliding `now - last ≥ cooldown`
window.  With the retained-keys set initially empty, a "bottle" candidate at
`t = 4` is admitted, and a second "bottle" candidate at `t = 6` is admitted
as well, although only 2 seconds — less than the claimed 5-second
cooldown — have elapsed since the last admission. -/
theorem cooldown_claim_false :
    guardRun [] [("bottle", 4), ("bottle", 6)] = [true, true] ∧
    ¬((6 : ℚ) - 4 ≥ 5) := by
  obtain ⟨k0, k3, k4, k6, kc⟩ := itemKey_vals
  constructor
  · simp [guardRun, guardAdmit, guardUpdate, k4, k6]
  · norm_num

/-- C3 amended: admission is per-label, 5-second-*bucket* dedup: a candidate
is admitted iff the key `f"{label}_{int(now/5)}"` is not among the retained
recently-logged keys, and the key is added on a successful log.  This
implies the spec's example (one label, admissions attempted at t=0, 3, 6
give admit/reject/admit, since 0 and 3 share bucket 0 while 6 is in bucket
1), but it is not the claimed sliding window: candidates 2 seconds apart
are both admitted when a bucket boundary intervenes (t=4 then t=6), and a
different label is admitted immediately (t=0 then t=1). -/
theorem guard_is_bucketed_dedup :
    guardRun [] [("bottle", 0), ("bottle", 3), ("bottle", 6)]
      = [true, false, true] ∧
    guardRun [] [("bottle", 4), ("bottle", 6)] = [true, true] ∧
    guardRun [] [("bottle", 0), ("can", 1)] = [true, true] ∧
    itemKey "bottle" 3 = itemKey "bottle" 0 ∧
    itemKey "bottle" 6 ≠ itemKey "bottle" 0 := by
  obtain ⟨k0, k3, k4, k6, kc⟩ := itemKey_vals
  refine ⟨?_, ?_, ?_, by rw [k3, k0], by rw [k6, k0]; decide⟩ <;>
    simp [guardRun, guardAdmit, guardUpdate, k0, k3, k4, k6, kc]

/-! ## Claim C8: best-detection selection -/

/-- The running-best fold of `selectBest` (Python `max` with a key) either
keeps the seed (when nothing is strictly larger) or lands on the first
element that strictly exceeds everything before it and is not exceeded by
anything after it. -/
lemma foldl_best_spec (rest : List Detection) (d : Detection) :
    (rest.foldl (fun best x => if best.confidence < x.confidence then x else best) d
        = d ∧ ∀ x ∈ rest, x.confidence ≤ d.confidence) ∨
    (∃ pre r suf, rest = pre ++ r :: suf ∧
      rest.foldl (fun best x => if best.confidence < x.confidence then x else best) d
        = r ∧
      d.confidence < r.confidence ∧
      (∀ y ∈ pre, y.confidence < r.confidence) ∧
      (∀ y ∈ suf, y.confidence ≤ r.confidence)) := by
  induction rest generalizing d with
  | nil => exact Or.inl ⟨rfl, by simp⟩
  | cons x rest ih =>
    simp only [List.foldl_cons]
    by_cases h : d.confidence < x.confidence
    · rw [if_pos h]
      rcases ih x with ⟨heq, hall⟩ | ⟨pre, r, suf, hsplit, heq, hlt, hpre, hsuf⟩
      · exact Or.inr ⟨[], x, rest, by simp, heq, h, by simp, hall⟩
      · refine Or.inr ⟨x :: pre, r, suf, by simp [hsplit], heq,
          lt_trans h hlt, ?_, hsuf⟩
        intro y hy
        rcases List.mem_cons.mp hy with rfl | hy
        · exact hlt
        · exact hpre y hy
    · rw [if_neg h]
      push_neg at h
      rcases ih d with ⟨heq, hall⟩ | ⟨pre, r, suf, hsplit, heq, hlt, hpre, hsuf⟩
      · refine Or.inl ⟨heq, ?_⟩
        intro y hy
        rcases List.mem_cons.mp hy with rfl | hy
        · exact h
        · exact hall y hy
      · refine Or.inr ⟨x :: pre, r, suf, by simp [hsplit], heq, hlt, ?_, hsuf⟩
        intro y hy
        rcases List.mem_cons.mp hy with rfl | hy
        · exact lt_of_le_of_lt h hlt
        · exact hpre y hy

/-- C8: on every non-empty detection sequence, `select_best` returns a
detection of maximum confidence; when several share the maximum it returns
the earliest (every detection before it is strictly smaller — Python `max`
replaces the running best only on a strictly larger key). -/
theorem selectBest_first_max (l : List Detection) (h : l ≠ []) :
    ∃ best pre suf, selectBest l = some best ∧ l = pre ++ best :: suf ∧
      (∀ y ∈ pre, y.confidence < best.confidence) ∧
      (∀ y ∈ l, y.confidence ≤ best.confidence) := by
  match l with
  | [] => exact absurd rfl h
  | d :: rest =>
    rcases foldl_best_spec rest d with ⟨heq, hall⟩ |
        ⟨pre, r, suf, hsplit, heq, hlt, hpre, hsuf⟩
    · refine ⟨d, [], rest, ?_, by simp, by simp, ?_⟩
      · simp [selectBest, heq]
      · intro y hy
        rcases List.mem_cons.mp hy with rfl | hy
        · exact le_refl _
        · exact hall y hy
    · refine ⟨r, d :: pre, suf, ?_, by simp [hsplit], ?_, ?_⟩
      · simp [selectBest, heq]
      · intro y hy
        rcases List.mem_cons.mp hy with rfl | hy
        · exact hlt
        · exact hpre y hy
      · intro y hy
        rcases List.mem_cons.mp hy with rfl | hy
        · exact le_of_lt hlt
        · rw [hsplit] at hy
          rcases List.mem_append.mp hy with hy | hy
          · exact le_of_lt (hpre y hy)
          · rcases List.mem_cons.mp hy with rfl | hy
            · exact le_refl _
            · exact hsuf y hy

/-- The spec's worked example: detections at confidences 0.3, 0.7, 0.55. -/
def exA : Detection := ⟨"fork", 3/10, (0, 0, 1, 1)⟩

def exB : Detection := ⟨"bottle", 7/10, (2, 2, 3, 3)⟩

def exC : Detection := ⟨"can", 11/20, (4, 4, 5, 5)⟩

/-- C8 witness: on confidences [0.3, 0.7, 0.55] with threshold 0.5, the
filtered sequence is [0.7, 0.55] and `select_best` returns the 0.7 item;
the main theorem applied to that filtered sequence. -/
theorem selectBest_first_max_witness :
    filterDetections [exA, exB, exC] (1/2) = [exB, exC] ∧
    selectBest [exB, exC] = some exB ∧
    filterDetections [exA, exB, exC] (1/2) ≠ [] ∧
    (∃ best pre suf,
      selectBest (filterDetections [exA, exB, exC] (1/2)) = some best ∧
      filterDetections [exA, exB, exC] (1/2) = pre ++ best :: suf ∧
      (∀ y ∈ pre, y.confidence < best.confidence) ∧
      (∀ y ∈ filterDetections [exA, exB, exC] (1/2),
        y.confidence ≤ best.confidence)) := by
  have hf : filterDetections [exA, exB, exC] (1/2) = [exB, exC] := by
    norm_num [filterDetections, exA, exB, exC, List.filter]
  have hs : selectBest [exB, exC] = some exB := by
    norm_num [selectBest, exB, exC]
  exact ⟨hf, hs, by rw [hf]; simp,
    selectBest_first_max _ (by rw [hf]; simp)⟩

/-! ## Claim C2: actuation vs. recording order -/

/-- A concrete admitted cycle: all external calls succeed, servo enabled,
retained keys empty, one "bottle" detection at 0.9 confidence. -/
def exEnv : CycleEnv :=
  { confidenceThreshold := 1/2, enableLogging := true, enableServo := true,
    now := 0, logFails := false, f0 := false, f1 := false, f2 := false,
    recenterFault := false, visible := fun _ => false }

def exState : UIState :=
  { latestDetections := [], inferenceSource := "none", inferenceTimeMs := 0,
    lastLoggedItems := [], loggedCount := 0, detectionCount := 0,
    servoPos := 90 }

def exDetection : Detection := ⟨"bottle", 9/10, (0, 0, 1, 1)⟩

def exResult : ClassificationResult := ⟨[exDetection], 50⟩

lemma exCycle_trace :
    (uiProInferenceCycle exEnv exState (some exResult)).2
      = [CycleAction.recordEvent "bottle" true, CycleAction.servoCommand 90,
         CycleAction.servoCommand 180, CycleAction.servoCommand 90] := by
  obtain ⟨k0, -, -, -, -⟩ := itemKey_vals
  have hrec : isRecyclable "bottle" = true := by decide
  norm_num [uiProInferenceCycle, exEnv, exState, exResult, exDetection,
    filterDetections, List.filter, selectBest, k0, hrec, guardUpdate,
    moveServoForItem, emergencyRecenter]

/-- C2 counterexample: in a fully successful admitted cycle
(`detector_ui_pro.py:334-361`), the `log_disposal` record is the *first*
external action and every servo command comes after it: the disposal event
is persisted before actuation is attempted, refuting "the actuator trigger
is attempted before the disposal event is recorded". -/
theorem recording_precedes_actuation :
    (uiProInferenceCycle exEnv exState (some exResult)).2
      = [CycleAction.recordEvent "bottle" true, CycleAction.servoCommand 90,
         CycleAction.servoCommand 180, CycleAction.servoCommand 90] ∧
    ((uiProInferenceCycle exEnv exState (some exResult)).2.takeWhile
        (fun a => !a.isRecordEvent)).all (fun a => !a.isServoCommand) = true ∧
    (uiProInferenceCycle exEnv exState (some exResult)).2.any
        CycleAction.isServoCommand = true := by
  refine ⟨exCycle_trace, ?_, ?_⟩ <;>
    rw [exCycle_trace] <;> decide

/-- C2 amended: recording precedes actuation.  In every admitted ui_pro
cycle with logging enabled, the cycle's first external action is the
`log_disposal` attempt; all servo commands come after it, and they are
issued only when the record succeeded (a failed record skips actuation for
that cycle).  In the headless variant the record attempt likewise comes
first, but the servo moves regardless of record success (second
conjunct: the fault-free headless trace is the record attempt — succeeded
or not — followed by the two servo commands). -/
theorem record_then_actuate (env : CycleEnv) (st : UIState)
    (res : ClassificationResult) (best : Detection)
    (lf rec : Bool) (label : String) (pos : ℚ)
    (henable : env.enableLogging = true)
    (hbest : selectBest (filterDetections res.detections env.confidenceThreshold)
      = some best)
    (hfresh : st.lastLoggedItems.contains (itemKey best.label env.now) = false) :
    (∃ ok rest,
      (uiProInferenceCycle env st (some res)).2
        = CycleAction.recordEvent best.label ok :: rest ∧
      rest.all CycleAction.isServoCommand = true ∧
      (ok = false → rest = [])) ∧
    headlessLogAndMove true lf true rec label pos false false
      = [CycleAction.recordEvent label (!lf),
         CycleAction.servoCommand (if rec then 180 else 90),
         CycleAction.servoCommand 180] := by
  refine ⟨?_, by cases rec <;> cases lf <;> simp [headlessLogAndMove, moveServo]⟩
  simp only [uiProInferenceCycle, hbest, henable, hfresh]
  cases hlog : env.logFails with
  | true =>
    refine ⟨false, [], ?_, rfl, fun _ => rfl⟩
    simp
  | false =>
    refine ⟨true, (moveServoForItem env.enableServo (isRecyclable best.label)
      st.servoPos env.f0 env.f1 env.f2 env.recenterFault env.visible).cmds.map
        CycleAction.servoCommand, ?_, ?_, by simp⟩
    · simp
    · simp [List.all_map, CycleAction.isServoCommand]

/-- C2 witness: the amended theorem applied to the concrete admitted cycle
`exEnv`/`exState`/`exResult`. -/
theorem record_then_actuate_witness :
    exEnv.enableLogging = true ∧
    selectBest (filterDetections exResult.detections exEnv.confidenceThreshold)
      = some exDetection ∧
    exState.lastLoggedItems.contains (itemKey exDetection.label exEnv.now)
      = false ∧
    ((∃ ok rest,
      (uiProInferenceCycle exEnv exState (some exResult)).2
        = CycleAction.recordEvent exDetection.label ok :: rest ∧
      rest.all CycleAction.isServoCommand = true ∧
      (ok = false → rest = [])) ∧
    headlessLogAndMove true true true false "cup" 180 false false
      = [CycleAction.recordEvent "cup" false,
         CycleAction.servoCommand (if false then 180 else 90),
         CycleAction.servoCommand 180]) := by
  have hbest : selectBest (filterDetections exResult.detections
      exEnv.confidenceThreshold) = some exDetection := by
    norm_num [selectBest, filterDetections, List.filter, exResult, exEnv,
      exDetection]
  have hfresh : exState.lastLoggedItems.contains
      (itemKey exDetection.label exEnv.now) = false := by
    simp [exState]
  exact ⟨rfl, hbest, hfresh,
    record_then_actuate exEnv exState exResult exDetection true false "cup" 180
      rfl hbest hfresh⟩

/-! ## Claim C9: bounded clear-wait -/

/-- The wait loop performs at most `fuel` further checks. -/
lemma clearLoop_count_le (visible : ℕ → Bool) :
    ∀ (fuel k consec : ℕ), (clearLoop visible fuel k consec).2 ≤ k + fuel := by
  intro fuel
  induction fuel with
  | zero => intro k consec; simp [clearLoop]
  | succ n ih =>
    intro k consec
    rw [clearLoop]
    by_cases hv : visible k = true
    · rw [if_pos hv]
      have := ih (k + 1) 0
      omega
    · rw [if_neg hv]
      by_cases hc : consec + 1 ≥ 2
      · rw [if_pos hc]
        show k + 1 ≤ k + (n + 1)
        omega
      · rw [if_neg hc]
        have := ih (k + 1) (consec + 1)
        omega

/-- Unless the item cleared, the loop runs until the wait budget is
exhausted. -/
lemma clearLoop_exhausts (visible : ℕ → Bool) :
    ∀ (fuel k consec : ℕ), (clearLoop visible fuel k consec).1 = true ∨
      (clearLoop visible fuel k consec).2 = k + fuel := by
  intro fuel
  induction fuel with
  | zero => intro k consec; right; simp [clearLoop]
  | succ n ih =>
    intro k consec
    rw [clearLoop]
    by_cases hv : visible k = true
    · rw [if_pos hv]
      rcases ih (k + 1) 0 with h | h
      · exact Or.inl h
      · right; omega
    · rw [if_neg hv]
      by_cases hc : consec + 1 ≥ 2
      · rw [if_pos hc]; exact Or.inl rfl
      · rw [if_neg hc]
        rcases ih (k + 1) (consec + 1) with h | h
        · exact Or.inl h
        · right; omega

/-- Exit characterization of the wait loop, for the two reachable values of
`consecutive_clear_checks` (0 and 1): the loop reports `item_gone` exactly
when two consecutive clear checks fit in the remaining budget. -/
lemma clearLoop_gone_iff (visible : ℕ → Bool) :
    ∀ (fuel k : ℕ),
      ((clearLoop visible fuel k 0).1 = true ↔
        ∃ j, k ≤ j ∧ j + 2 ≤ k + fuel ∧ visible j = false ∧
          visible (j + 1) = false) ∧
      ((clearLoop visible fuel k 1).1 = true ↔
        ((1 ≤ fuel ∧ visible k = false) ∨
         ∃ j, k + 1 ≤ j ∧ j + 2 ≤ k + fuel ∧ visible j = false ∧
           visible (j + 1) = false)) := by
  intro fuel
  induction fuel with
  | zero =>
    intro k
    constructor
    · rw [clearLoop]
      simp only [show ((false, k).1 = true) ↔ False by simp]
      constructor
      · exact False.elim
      · rintro ⟨j, hj1, hj2, -, -⟩; omega
    · rw [clearLoop]
      simp only [show ((false, k).1 = true) ↔ False by simp]
      constructor
      · exact False.elim
      · rintro (⟨h1, -⟩ | ⟨j, hj1, hj2, -, -⟩) <;> omega
  | succ n ih =>
    intro k
    have ih0 := (ih (k + 1)).1
    have ih1 := (ih (k + 1)).2
    constructor
    · rw [clearLoop]
      by_cases hv : visible k = true
      · rw [if_pos hv, ih0]
        constructor
        · rintro ⟨j, hj1, hj2, hj3, hj4⟩
          exact ⟨j, by omega, by omega, hj3, hj4⟩
        · rintro ⟨j, hj1, hj2, hj3, hj4⟩
          rcases Nat.eq_or_lt_of_le hj1 with rfl | hgt
          · rw [hv] at hj3; exact absurd hj3 (by simp)
          · exact ⟨j, by omega, by omega, hj3, hj4⟩
      · have hv' : visible k = false := by simpa using hv
        rw [if_neg hv, if_neg (by omega : ¬ 0 + 1 ≥ 2), ih1]
        constructor
        · rintro (⟨hn, hv1⟩ | ⟨j, hj1, hj2, hj3, hj4⟩)
          · exact ⟨k, le_refl k, by omega, hv', hv1⟩
          · exact ⟨j, by omega, by omega, hj3, hj4⟩
        · rintro ⟨j, hj1, hj2, hj3, hj4⟩
          rcases Nat.eq_or_lt_of_le hj1 with rfl | hgt
          · exact Or.inl ⟨by omega, hj4⟩
          · rcases Nat.eq_or_lt_of_le (by omega : k + 1 ≤ j) with rfl | hgt2
            · exact Or.inl ⟨by omega, hj3⟩
            · exact Or.inr ⟨j, by omega, by omega, hj3, hj4⟩
    · rw [clearLoop]
      by_cases hv : visible k = true
      · rw [if_pos hv, ih0]
        constructor
        · rintro ⟨j, hj1, hj2, hj3, hj4⟩
          exact Or.inr ⟨j, by omega, by omega, hj3, hj4⟩
        · rintro (⟨-, hv1⟩ | ⟨j, hj1, hj2, hj3, hj4⟩)
          · rw [hv] at hv1; exact absurd hv1 (by simp)
          · exact ⟨j, by omega, by omega, hj3, hj4⟩
      · have hv' : visible k = false := by simpa using hv
        rw [if_neg hv, if_pos (by omega : 1 + 1 ≥ 2)]
        simp only [show ((true, k + 1).1 = true) ↔ True by simp, true_iff]
        exact Or.inl ⟨by omega, hv'⟩

/-- C9: the AwaitingClear wait of `move_servo_for_item` terminates after at
most 17 checks (`17 × 0.3 s` of polling, the first total at or above the
5-second budget — `clearLoop_guard`); it reports the item gone exactly when
some two consecutive polls within the budget both miss the triggering
label, and otherwise it runs the full budget.  Worst-case actuation cycle
time is therefore bounded. -/
theorem awaitClear_bounded (visible : ℕ → Bool) :
    (awaitClear visible).2 ≤ 17 ∧
    ((awaitClear visible).1 = true ↔
      ∃ j, j + 1 ≤ 16 ∧ visible j = false ∧ visible (j + 1) = false) ∧
    ((awaitClear visible).1 = true ∨ (awaitClear visible).2 = 17) := by
  refine ⟨clearLoop_count_le visible 17 0 0, ?_, ?_⟩
  · rw [awaitClear, (clearLoop_gone_iff visible 17 0).1]
    constructor
    · rintro ⟨j, -, hj2, hj3, hj4⟩
      exact ⟨j, by omega, hj3, hj4⟩
    · rintro ⟨j, hj1, hj3, hj4⟩
      exact ⟨j, by omega, by omega, hj3, hj4⟩
  · exact clearLoop_exhausts visible 17 0 0

/-! ## Claim C10: overlap suppression invariant -/

/-- `compute_iou` is symmetric in its two boxes. -/
lemma computeIoU_comm (b1 b2 : ℚ × ℚ × ℚ × ℚ) :
    computeIoU b1 b2 = computeIoU b2 b1 := by
  simp only [computeIoU]
  rw [max_comm b1.1 b2.1, max_comm b1.2.1 b2.2.1,
      min_comm b1.2.2.1 b2.2.2.1, min_comm b1.2.2.2 b2.2.2.2,
      add_comm ((b1.2.2.1 - b1.1) * (b1.2.2.2 - b1.2.1))]

/-- Invariant of the `for det in sorted_dets` loop of `filter_overlapping`:
starting from a kept list that is pairwise non-overlapping and dominates
(in confidence) everything still to be processed, the loop produces a kept
list drawn from its inputs, pairwise non-overlapping, and such that every
dropped detection overlaps some kept detection of no smaller confidence. -/
lemma keepFold_invariant (t : ℚ) :
    ∀ (rest kept : List Detection),
      List.Pairwise (fun a b => computeIoU a.bbox b.bbox ≤ t) kept →
      (∀ k ∈ kept, ∀ d ∈ rest, d.confidence ≤ k.confidence) →
      List.Pairwise confGE rest →
      (∀ d ∈ rest.foldl (keepStep t) kept, d ∈ kept ∨ d ∈ rest) ∧
      (∀ k ∈ kept, k ∈ rest.foldl (keepStep t) kept) ∧
      List.Pairwise (fun a b => computeIoU a.bbox b.bbox ≤ t)
        (rest.foldl (keepStep t) kept) ∧
      (∀ d ∈ rest, d ∈ rest.foldl (keepStep t) kept ∨
        ∃ k, k ∈ rest.foldl (keepStep t) kept ∧
          t < computeIoU d.bbox k.bbox ∧ d.confidence ≤ k.confidence) := by
  intro rest
  induction rest with
  | nil =>
    intro kept hpw _ _
    exact ⟨fun d hd => Or.inl hd, fun k hk => hk, hpw, by simp⟩
  | cons det rest ih =>
    intro kept hpw hlink hsorted
    rw [List.foldl_cons]
    obtain ⟨hhead, htail⟩ := List.pairwise_cons.mp hsorted
    by_cases hdom :
        (kept.any fun keptDet => t < computeIoU det.bbox keptDet.bbox) = true
    · have hstep : keepStep t kept det = kept := by
        rw [keepStep, if_pos hdom]
      rw [hstep]
      obtain ⟨hc1, hc2, hc3, hc4⟩ := ih kept hpw
        (fun k hk d hd => hlink k hk d (List.mem_cons_of_mem det hd)) htail
      refine ⟨?_, hc2, hc3, ?_⟩
      · intro d hd
        rcases hc1 d hd with h | h
        · exact Or.inl h
        · exact Or.inr (List.mem_cons_of_mem det h)
      · intro d hd
        rcases List.mem_cons.mp hd with rfl | hd'
        · obtain ⟨x, hx, hpx⟩ := List.any_eq_true.mp hdom
          exact Or.inr ⟨x, hc2 x hx, of_decide_eq_true hpx,
            hlink x hx d (List.mem_cons_self d rest)⟩
        · exact hc4 d hd'
    · have hstep : keepStep t kept det = kept ++ [det] := by
        rw [keepStep, if_neg hdom]
      rw [hstep]
      have hnotov : ∀ x ∈ kept, computeIoU det.bbox x.bbox ≤ t := by
        intro x hx
        by_contra hgt
        push_neg at hgt
        exact hdom (List.any_eq_true.mpr ⟨x, hx, decide_eq_true hgt⟩)
      have hpw' : List.Pairwise (fun a b => computeIoU a.bbox b.bbox ≤ t)
          (kept ++ [det]) := by
        rw [List.pairwise_append]
        refine ⟨hpw, List.pairwise_singleton _ _, ?_⟩
        intro a ha b hb
        rw [List.mem_singleton.mp hb, computeIoU_comm]
        exact hnotov a ha
      have hlink' : ∀ k ∈ kept ++ [det], ∀ d ∈ rest,
          d.confidence ≤ k.confidence := by
        intro k hk d hd
        rcases List.mem_append.mp hk with hk | hk
        · exact hlink k hk d (List.mem_cons_of_mem det hd)
        · rw [List.mem_singleton.mp hk]
          exact hhead d hd
      obtain ⟨hc1, hc2, hc3, hc4⟩ := ih (kept ++ [det]) hpw' hlink' htail
      refine ⟨?_, ?_, hc3, ?_⟩
      · intro d hd
        rcases hc1 d hd with h | h
        · rcases List.mem_append.mp h with h | h
          · exact Or.inl h
          · rw [List.mem_singleton.mp h]
            exact Or.inr (List.mem_cons_self det rest)
        · exact Or.inr (List.mem_cons_of_mem det h)
      · intro k hk
        exact hc2 k (List.mem_append_left _ hk)
      · intro d hd
        rcases List.mem_cons.mp hd with rfl | hd'
        · exact Or.inl (hc2 d (List.mem_append_right _ (List.mem_singleton_self d)))
        · exact hc4 d hd'

/-- C10: on every input, the list returned by `filter_overlapping` (and
hence the `detections` field of `format_detections`) is a subset of the
input; every pair of retained detections has IoU at most the threshold 0.5;
and every suppressed detection overlaps (IoU above 0.5) some retained
detection of no smaller confidence. -/
theorem overlap_suppression (D : List Detection) (ms : ℚ) :
    (∀ d ∈ filterOverlapping D (1/2), d ∈ D) ∧
    List.Pairwise (fun a b => computeIoU a.bbox b.bbox ≤ 1/2)
      (filterOverlapping D (1/2)) ∧
    (∀ d ∈ D, d ∉ filterOverlapping D (1/2) →
      ∃ k, k ∈ filterOverlapping D (1/2) ∧
        1/2 < computeIoU d.bbox k.bbox ∧ d.confidence ≤ k.confidence) ∧
    (formatDetections D ms).detections = filterOverlapping D (1/2) := by
  cases D with
  | nil => simp [filterOverlapping, formatDetections]
  | cons d0 rest0 =>
    have hperm : List.Perm (List.insertionSort confGE (d0 :: rest0)) (d0 :: rest0) :=
      List.perm_insertionSort confGE _
    have hsorted : List.Pairwise confGE (List.insertionSort confGE (d0 :: rest0)) :=
      List.sorted_insertionSort confGE _
    obtain ⟨hc1, hc2, hc3, hc4⟩ := keepFold_invariant (1/2)
      (List.insertionSort confGE (d0 :: rest0)) []
      List.Pairwise.nil (by simp) hsorted
    have hfo : filterOverlapping (d0 :: rest0) (1/2)
        = (List.insertionSort confGE (d0 :: rest0)).foldl
            (keepStep (1/2)) [] := rfl
    refine ⟨?_, ?_, ?_, rfl⟩
    · intro d hd
      rw [hfo] at hd
      rcases hc1 d hd with h | h
      · simp at h
      · exact hperm.mem_iff.mp h
    · rw [hfo]; exact hc3
    · intro d hd hnot
      rw [hfo] at hnot ⊢
      rcases hc4 d (hperm.mem_iff.mpr hd) with h | ⟨k, hk, hiou, hconf⟩
      · exact absurd h hnot
      · exact ⟨k, hk, hiou, hconf⟩

end Sortacle
